import Mathlib

/-!
Verification of the regression-and-interaction engine of `main_lr_pl_v.cpp`
(linear and degree-2 polynomial least-squares fitting, data/viewport
coordinate mapping, bounds recomputation and nearest-point removal).

The C++ code works on `float`/`double`; this development embeds the same
arithmetic over `ℚ`, i.e. it verifies the algorithms in exact arithmetic.
Loops accumulating values are embedded as `List.foldl` with the same
accumulator updates as the source loops.  The nearest-point search of
`removeNearestPoint` compares Euclidean distances obtained with `std::sqrt`;
since the square root is strictly monotone on nonnegative reals, those
comparisons coincide with comparisons of the squared distances, so the
embedding tracks squared distances and uses the squared threshold
`100 = 10²` in place of the source's `10` pixels.
-/

namespace LinPolyReg

/-- `struct Point { float x; float y; }`. -/
structure Point where
  x : ℚ
  y : ℚ
deriving DecidableEq, Repr

/-- `enum class RegressionType { LINEAR, POLYNOMIAL2 }`. -/
inductive RegressionType where
  | LINEAR
  | POLYNOMIAL2
deriving DecidableEq, Repr

/-- Loop `for (auto& p : points) sumX += p.x;` of `computeLinearRegression`. -/
def sumX (points : List Point) : ℚ :=
  points.foldl (fun acc p => acc + p.x) 0

/-- Loop `for (auto& p : points) sumY += p.y;` of `computeLinearRegression`. -/
def sumY (points : List Point) : ℚ :=
  points.foldl (fun acc p => acc + p.y) 0

/-- Loop accumulating `numerator += dx * dy` with `dx = p.x - meanX`,
`dy = p.y - meanY` in `computeLinearRegression`. -/
def covSum (points : List Point) (meanX meanY : ℚ) : ℚ :=
  points.foldl (fun acc p => acc + (p.x - meanX) * (p.y - meanY)) 0

/-- Loop accumulating `denominator += dx * dx` with `dx = p.x - meanX`
in `computeLinearRegression`. -/
def varSum (points : List Point) (meanX : ℚ) : ℚ :=
  points.foldl (fun acc p => acc + (p.x - meanX) * (p.x - meanX)) 0

/-- `computeLinearRegression` (lines 105-137 of the source): returns the pair
`(slope, intercept)`.  Empty input returns `{0,0}`; the slope division is
guarded by `denominator != 0`, otherwise `slope` keeps its initial `0`. -/
def computeLinearRegression (points : List Point) : ℚ × ℚ :=
  if points = [] then (0, 0)
  else
    let meanX := sumX points / (points.length : ℚ)
    let meanY := sumY points / (points.length : ℚ)
    let numerator := covSum points meanX meanY
    let denominator := varSum points meanX
    let slope := if denominator ≠ 0 then numerator / denominator else 0
    (slope, meanY - slope * meanX)

/-- Specification-side arithmetic mean of the x coordinates. -/
def xBar (points : List Point) : ℚ :=
  (points.map Point.x).sum / (points.length : ℚ)

/-- Specification-side arithmetic mean of the y coordinates. -/
def yBar (points : List Point) : ℚ :=
  (points.map Point.y).sum / (points.length : ℚ)

/-- Specification-side covariance numerator `Σ (xᵢ − x̄)(yᵢ − ȳ)`. -/
def covAboutMeans (points : List Point) : ℚ :=
  (points.map (fun p => (p.x - xBar points) * (p.y - yBar points))).sum

/-- Specification-side variance denominator `Σ (xᵢ − x̄)²`. -/
def varAboutMean (points : List Point) : ℚ :=
  (points.map (fun p => (p.x - xBar points) ^ 2)).sum

/-- `struct Poly2Coeffs { float a; float b; float c; }` for `y = a·x² + b·x + c`. -/
structure Poly2Coeffs where
  a : ℚ
  b : ℚ
  c : ℚ
deriving DecidableEq, Repr

/-- The `det3` lambda of `computePolynomialRegression2`: cofactor expansion of a
3×3 determinant along the first row, exactly as written in the source. -/
def det3 (m00 m01 m02 m10 m11 m12 m20 m21 m22 : ℚ) : ℚ :=
  m00 * (m11 * m22 - m12 * m21) -
  m01 * (m10 * m22 - m12 * m20) +
  m02 * (m10 * m21 - m11 * m20)

/-- The seven running sums of the single accumulation loop in
`computePolynomialRegression2`. -/
structure RegSums where
  Sx : ℚ
  Sy : ℚ
  Sx2 : ℚ
  Sx3 : ℚ
  Sx4 : ℚ
  Sxy : ℚ
  Sx2y : ℚ
deriving DecidableEq, Repr

/-- Body of the accumulation loop: `x2 = x*x; x3 = x2*x; x4 = x3*x;` then
`Sx += x; Sy += y; ...` as in the source. -/
def accumSums (s : RegSums) (p : Point) : RegSums :=
  let x := p.x
  let y := p.y
  let x2 := x * x
  let x3 := x2 * x
  let x4 := x3 * x
  ⟨s.Sx + x, s.Sy + y, s.Sx2 + x2, s.Sx3 + x3, s.Sx4 + x4,
    s.Sxy + x * y, s.Sx2y + x2 * y⟩

/-- The power and cross sums of `computePolynomialRegression2`, all
accumulated from zero over the point list. -/
def regSums (points : List Point) : RegSums :=
  points.foldl accumSums ⟨0, 0, 0, 0, 0, 0, 0⟩

/-- The singularity threshold `1e-12` of `computePolynomialRegression2`. -/
def det3Threshold : ℚ := 1 / 10 ^ 12

/-- Determinant `D` of the main matrix
`[[n, Sx, Sx2], [Sx, Sx2, Sx3], [Sx2, Sx3, Sx4]]` built by
`computePolynomialRegression2`. -/
def mainDet (points : List Point) : ℚ :=
  let s := regSums points
  det3 (points.length : ℚ) s.Sx s.Sx2 s.Sx s.Sx2 s.Sx3 s.Sx2 s.Sx3 s.Sx4

/-- `computePolynomialRegression2` (lines 151-249 of the source): fewer than 3
points returns `{0,0,0}`; `|D| < 1e-12` returns `{0,0,0}`; otherwise Cramer's
rule with the right-hand side `(Sy, Sxy, Sx2y)` substituted into column 0
(for `c`), column 1 (for `b`) and column 2 (for `a`). -/
def computePolynomialRegression2 (points : List Point) : Poly2Coeffs :=
  if points.length < 3 then ⟨0, 0, 0⟩
  else
    let s := regSums points
    let n : ℚ := (points.length : ℚ)
    let D := det3 n s.Sx s.Sx2 s.Sx s.Sx2 s.Sx3 s.Sx2 s.Sx3 s.Sx4
    if |D| < det3Threshold then ⟨0, 0, 0⟩
    else
      let Dc := det3 s.Sy s.Sx s.Sx2 s.Sxy s.Sx2 s.Sx3 s.Sx2y s.Sx3 s.Sx4
      let Db := det3 n s.Sy s.Sx2 s.Sx s.Sxy s.Sx3 s.Sx2 s.Sx2y s.Sx4
      let Da := det3 n s.Sx s.Sy s.Sx s.Sx2 s.Sxy s.Sx2 s.Sx3 s.Sx2y
      ⟨Da / D, Db / D, Dc / D⟩

/-- Specification-side power sum `Σ xᵢ^k`. -/
def powerSum (points : List Point) (k : ℕ) : ℚ :=
  (points.map (fun p => p.x ^ k)).sum

/-- Specification-side cross sum `Σ xᵢ^k·yᵢ`. -/
def crossSum (points : List Point) (k : ℕ) : ℚ :=
  (points.map (fun p => p.x ^ k * p.y)).sum

/-- Specification-side 3×3 determinant by the rule of Sarrus (diagonal
products), an independent formulation of the determinant. -/
def det3Sarrus (m00 m01 m02 m10 m11 m12 m20 m21 m22 : ℚ) : ℚ :=
  m00 * m11 * m22 + m01 * m12 * m20 + m02 * m10 * m21 -
  m02 * m11 * m20 - m01 * m10 * m22 - m00 * m12 * m21

/-- `toScreenCoords` (lines 388-399 of the source): affine data→viewport map
with `topMargin = 120`, horizontal margins of 50 px on each side and a
bottom margin of 50 px; the vertical axis is inverted.  `w`, `h` are the
window size, `minX`/`maxX`/`minY`/`maxY` the current bounds. -/
def toScreenCoords (w h minX maxX minY maxY x y : ℚ) : ℚ × ℚ :=
  let topMargin : ℚ := 120
  let screenX := 50 + (x - minX) / (maxX - minX) * (w - 100)
  let screenY := h - 50 - (y - minY) / (maxY - minY) * (h - topMargin - 100)
  (screenX, screenY)

/-- `toDataCoords` (lines 401-413 of the source): the viewport→data map. -/
def toDataCoords (w h minX maxX minY maxY sx sy : ℚ) : ℚ × ℚ :=
  let topMargin : ℚ := 120
  let x := minX + (sx - 50) / (w - 100) * (maxX - minX)
  let normY := ((h - 50) - sy) / (h - topMargin - 100)
  (x, minY + normY * (maxY - minY))

/-- The mutable state of `main` that the interaction engine reads and
writes: the point set, the linear coefficients (`slope`, `intercept`), the
quadratic coefficients (`polyCoeffs`), the active regression type and the
bounds `minX`/`maxX`/`minY`/`maxY`. -/
structure AppState where
  dataPoints : List Point
  slope : ℚ
  intercept : ℚ
  polyCoeffs : Poly2Coeffs
  currentReg : RegressionType
  minX : ℚ
  maxX : ℚ
  minY : ℚ
  maxY : ℚ
deriving DecidableEq, Repr

/-- The `updateModelAndBounds` lambda (lines 339-382 of the source): on a
nonempty point set it scans for the raw extrema starting from the front
element, pads them by `pad = 1`, and recomputes only the active model; on
an empty set it installs the default range `[-1,1]×[-1,1]` and zero
coefficients for both models. -/
def updateModelAndBounds (s : AppState) : AppState :=
  match s.dataPoints with
  | [] =>
      { s with minX := -1, maxX := 1, minY := -1, maxY := 1,
               slope := 0, intercept := 0, polyCoeffs := ⟨0, 0, 0⟩ }
  | p :: rest =>
      let pts := p :: rest
      let mnX := pts.foldl (fun m q => if q.x < m then q.x else m) p.x
      let mxX := pts.foldl (fun m q => if q.x > m then q.x else m) p.x
      let mnY := pts.foldl (fun m q => if q.y < m then q.y else m) p.y
      let mxY := pts.foldl (fun m q => if q.y > m then q.y else m) p.y
      let pad : ℚ := 1
      if s.currentReg = RegressionType.LINEAR then
        let sb := computeLinearRegression pts
        { s with minX := mnX - pad, maxX := mxX + pad,
                 minY := mnY - pad, maxY := mxY + pad,
                 slope := sb.1, intercept := sb.2 }
      else
        { s with minX := mnX - pad, maxX := mxX + pad,
                 minY := mnY - pad, maxY := mxY + pad,
                 polyCoeffs := computePolynomialRegression2 pts }

/-- One step of the minimum search in `removeNearestPoint`:
`if (dist < minDist) { minDist = dist; minIndex = i; }`.  The state `none`
plays the role of the initial `minDist = FLT_MAX, minIndex = -1` (any
distance beats it). -/
def minStep (best : Option (ℕ × ℚ)) (i : ℕ) (d : ℚ) : Option (ℕ × ℚ) :=
  match best with
  | none => some (i, d)
  | some (j, m) => if d < m then some (i, d) else some (j, m)

/-- The indexed scan of `removeNearestPoint` over the list of distances,
carrying the running best `(minIndex, minDist)`. -/
def nearestLoop : Option (ℕ × ℚ) → ℕ → List ℚ → Option (ℕ × ℚ)
  | best, _, [] => best
  | best, i, d :: rest => nearestLoop (minStep best i d) (i + 1) rest

/-- The squared viewport distances of every data point to the mouse
position, in point-set order: `removeNearestPoint` maps each point through
`toScreenCoords` and measures `dx*dx + dy*dy` (the source then takes
`std::sqrt`, which does not change any comparison). -/
def sqDistsToQuery (w h : ℚ) (s : AppState) (mouseXScreen mouseYScreen : ℚ) :
    List ℚ :=
  s.dataPoints.map (fun p =>
    let pt := toScreenCoords w h s.minX s.maxX s.minY s.maxY p.x p.y
    let dx := pt.1 - mouseXScreen
    let dy := pt.2 - mouseYScreen
    dx * dx + dy * dy)

/-- The index selection of `removeNearestPoint`: the scan's winner is
reported only when its distance beats the 10-pixel threshold
(`minDist < 10.f && minIndex >= 0`), i.e. squared distance below `100`. -/
def findNearestIdx (ds : List ℚ) : Option ℕ :=
  match nearestLoop none 0 ds with
  | none => none
  | some (i, d) => if d < 100 then some i else none

/-- `removeNearestPoint` (lines 446-472 of the source) as a transition on
`AppState`: an empty point set returns immediately; otherwise the nearest
point is erased and the model/bounds recomputation cascade runs only when
the winner is within the threshold. -/
def removeNearestPoint (w h mouseXScreen mouseYScreen : ℚ) (s : AppState) :
    AppState :=
  if s.dataPoints = [] then s
  else
    match findNearestIdx (sqDistsToQuery w h s mouseXScreen mouseYScreen) with
    | some i => updateModelAndBounds { s with dataPoints := s.dataPoints.eraseIdx i }
    | none => s

/-- Division instrumented to fail on a zero divisor, used to show the
source's divisions never divide by zero on the executed branches. -/
def checkedDiv (a b : ℚ) : Option ℚ :=
  if b = 0 then none else some (a / b)

/-- `computeLinearRegression` with every division checked: the mean
divisions by `points.size()` and the guarded slope division. -/
def computeLinearRegressionChecked (points : List Point) : Option (ℚ × ℚ) :=
  if points = [] then some (0, 0)
  else do
    let meanX ← checkedDiv (sumX points) ((points.length : ℚ))
    let meanY ← checkedDiv (sumY points) ((points.length : ℚ))
    let slope ←
      if varSum points meanX ≠ 0 then
        checkedDiv (covSum points meanX meanY) (varSum points meanX)
      else some 0
    some (slope, meanY - slope * meanX)

/-- `computePolynomialRegression2` with the three Cramer divisions by `D`
checked. -/
def computePolynomialRegression2Checked (points : List Point) :
    Option Poly2Coeffs :=
  if points.length < 3 then some ⟨0, 0, 0⟩
  else
    let s := regSums points
    let n : ℚ := (points.length : ℚ)
    let D := det3 n s.Sx s.Sx2 s.Sx s.Sx2 s.Sx3 s.Sx2 s.Sx3 s.Sx4
    if |D| < det3Threshold then some ⟨0, 0, 0⟩
    else do
      let c ← checkedDiv (det3 s.Sy s.Sx s.Sx2 s.Sxy s.Sx2 s.Sx3 s.Sx2y s.Sx3 s.Sx4) D
      let b ← checkedDiv (det3 n s.Sy s.Sx2 s.Sx s.Sxy s.Sx3 s.Sx2 s.Sx2y s.Sx4) D
      let a ← checkedDiv (det3 n s.Sx s.Sy s.Sx s.Sx2 s.Sxy s.Sx2 s.Sx3 s.Sx2y) D
      some ⟨a, b, c⟩

/-- A one-point state used as a concrete instance in several witnesses; the
nonzero coefficients make the frame property observable. -/
def originPointState : AppState where
  dataPoints := [⟨0, 0⟩]
  slope := 3
  intercept := 7
  polyCoeffs := ⟨1, 2, 3⟩
  currentReg := RegressionType.LINEAR
  minX := -1
  maxX := 1
  minY := -1
  maxY := 1

/-- A state with no points, used as a concrete instance in witnesses. -/
def emptyPointState : AppState where
  dataPoints := []
  slope := 3
  intercept := 7
  polyCoeffs := ⟨1, 2, 3⟩
  currentReg := RegressionType.LINEAR
  minX := -1
  maxX := 1
  minY := -1
  maxY := 1

/-!  Theorems. -/

/-- A foldl accumulating `acc + f p` computes the initial value plus the sum
of `f` over the list. -/
theorem foldl_add_eq_sum {α : Type} (f : α → ℚ) :
    ∀ (l : List α) (a : ℚ),
      l.foldl (fun acc p => acc + f p) a = a + (l.map f).sum := by
  intro l
  induction l with
  | nil => intro a; simp
  | cons p rest ih =>
      intro a
      simp only [List.foldl_cons, List.map_cons, List.sum_cons]
      rw [ih]
      ring

theorem sumX_eq (points : List Point) : sumX points = (points.map Point.x).sum := by
  simpa using foldl_add_eq_sum Point.x points 0

theorem sumY_eq (points : List Point) : sumY points = (points.map Point.y).sum := by
  simpa using foldl_add_eq_sum Point.y points 0

theorem covSum_eq (points : List Point) (mx my : ℚ) :
    covSum points mx my = (points.map (fun p => (p.x - mx) * (p.y - my))).sum := by
  simpa using foldl_add_eq_sum (fun p : Point => (p.x - mx) * (p.y - my)) points 0

theorem varSum_eq (points : List Point) (mx : ℚ) :
    varSum points mx = (points.map (fun p => (p.x - mx) ^ 2)).sum := by
  have hfun : (fun p : Point => (p.x - mx) * (p.x - mx)) =
      fun p : Point => (p.x - mx) ^ 2 := by
    funext p
    ring
  have h := foldl_add_eq_sum (fun p : Point => (p.x - mx) * (p.x - mx)) points 0
  rw [varSum, h, zero_add, hfun]

/-- **C1.** `computeLinearRegression` returns `(0,0)` on the empty list;
otherwise, with `x̄`, `ȳ` the arithmetic means, it returns
`slope = Σ(xᵢ−x̄)(yᵢ−ȳ)/Σ(xᵢ−x̄)²` and `intercept = ȳ − slope·x̄` when the
variance denominator is nonzero, and `slope = 0`, `intercept = ȳ` when the
variance denominator is zero. -/
theorem computeLinearRegression_spec (points : List Point) :
    computeLinearRegression points =
      if points = [] then (0, 0)
      else if varAboutMean points ≠ 0 then
        (covAboutMeans points / varAboutMean points,
          yBar points - covAboutMeans points / varAboutMean points * xBar points)
      else (0, yBar points) := by
  by_cases hne : points = []
  · simp [computeLinearRegression, hne]
  · have hx : sumX points / (points.length : ℚ) = xBar points := by
      rw [xBar, sumX_eq]
    have hy : sumY points / (points.length : ℚ) = yBar points := by
      rw [yBar, sumY_eq]
    have hv : varSum points (xBar points) = varAboutMean points := by
      rw [varSum_eq]
      rfl
    have hc : covSum points (xBar points) (yBar points) = covAboutMeans points := by
      rw [covSum_eq]
      rfl
    simp only [computeLinearRegression, hne, if_false, hx, hy, hv, hc]
    by_cases hden : varAboutMean points = 0
    · simp [hden]
    · simp [hden]

theorem det3_eq_sarrus (m00 m01 m02 m10 m11 m12 m20 m21 m22 : ℚ) :
    det3 m00 m01 m02 m10 m11 m12 m20 m21 m22 =
      det3Sarrus m00 m01 m02 m10 m11 m12 m20 m21 m22 := by
  simp only [det3, det3Sarrus]
  ring

/-- Unfolding lemma: the loop state after folding `accumSums` is the initial
state plus the specification-side sums. -/
theorem regSums_foldl (points : List Point) :
    ∀ s : RegSums,
      points.foldl accumSums s =
        ⟨s.Sx + powerSum points 1, s.Sy + crossSum points 0,
          s.Sx2 + powerSum points 2, s.Sx3 + powerSum points 3,
          s.Sx4 + powerSum points 4, s.Sxy + crossSum points 1,
          s.Sx2y + crossSum points 2⟩ := by
  induction points with
  | nil => intro s; simp [powerSum, crossSum]
  | cons p rest ih =>
      intro s
      simp only [List.foldl_cons, ih, accumSums, powerSum, crossSum,
        List.map_cons, List.sum_cons]
      refine RegSums.mk.injEq .. ▸ ⟨?_, ?_, ?_, ?_, ?_, ?_, ?_⟩ <;> ring

theorem regSums_eq (points : List Point) :
    regSums points =
      ⟨powerSum points 1, crossSum points 0, powerSum points 2,
        powerSum points 3, powerSum points 4, crossSum points 1,
        crossSum points 2⟩ := by
  have h := regSums_foldl points ⟨0, 0, 0, 0, 0, 0, 0⟩
  simpa [regSums] using h

/-- Branch lemma: fewer than 3 points gives the zero fit. -/
theorem computePolynomialRegression2_short (points : List Point)
    (h : points.length < 3) : computePolynomialRegression2 points = ⟨0, 0, 0⟩ := by
  simp [computePolynomialRegression2, h]

/-- Branch lemma: a main determinant below the threshold gives the zero fit. -/
theorem computePolynomialRegression2_singular (points : List Point)
    (hD : |mainDet points| < det3Threshold) :
    computePolynomialRegression2 points = ⟨0, 0, 0⟩ := by
  by_cases hlen : points.length < 3
  · simp [computePolynomialRegression2, hlen]
  · simp only [computePolynomialRegression2, hlen, if_false]
    simp only [mainDet] at hD
    simp [hD]

/-- Branch lemma: at least 3 points and a determinant at or above the
threshold gives the Cramer quotients built from the accumulated sums. -/
theorem computePolynomialRegression2_nonsingular (points : List Point)
    (h3 : ¬ points.length < 3) (hD : ¬ |mainDet points| < det3Threshold) :
    computePolynomialRegression2 points =
      ⟨det3 (points.length : ℚ) (regSums points).Sx (regSums points).Sy
          (regSums points).Sx (regSums points).Sx2 (regSums points).Sxy
          (regSums points).Sx2 (regSums points).Sx3 (regSums points).Sx2y /
        mainDet points,
       det3 (points.length : ℚ) (regSums points).Sy (regSums points).Sx2
          (regSums points).Sx (regSums points).Sxy (regSums points).Sx3
          (regSums points).Sx2 (regSums points).Sx2y (regSums points).Sx4 /
        mainDet points,
       det3 (regSums points).Sy (regSums points).Sx (regSums points).Sx2
          (regSums points).Sxy (regSums points).Sx2 (regSums points).Sx3
          (regSums points).Sx2y (regSums points).Sx3 (regSums points).Sx4 /
        mainDet points⟩ := by
  simp only [computePolynomialRegression2, h3, if_false, mainDet] at hD ⊢
  simp [hD]

/-- **C2.** With at least 3 points and `|D| ≥ 1e-12` for the determinant `D`
of the normal-equations matrix `[[n,Sx,Sx2],[Sx,Sx2,Sx3],[Sx2,Sx3,Sx4]]`,
`computePolynomialRegression2` returns exactly the Cramer's-rule solution
`(a, b, c)` of the system with right-hand side `(Sy, Sxy, Sx2y)`, the sums
being the power and cross sums of the points. -/
theorem computePolynomialRegression2_cramer (points : List Point)
    (h3 : 3 ≤ points.length) (hD : det3Threshold ≤ |mainDet points|) :
    computePolynomialRegression2 points =
      ⟨det3Sarrus (points.length : ℚ) (powerSum points 1) (crossSum points 0)
          (powerSum points 1) (powerSum points 2) (crossSum points 1)
          (powerSum points 2) (powerSum points 3) (crossSum points 2) /
        mainDet points,
       det3Sarrus (points.length : ℚ) (crossSum points 0) (powerSum points 2)
          (powerSum points 1) (crossSum points 1) (powerSum points 3)
          (powerSum points 2) (crossSum points 2) (powerSum points 4) /
        mainDet points,
       det3Sarrus (crossSum points 0) (powerSum points 1) (powerSum points 2)
          (crossSum points 1) (powerSum points 2) (powerSum points 3)
          (crossSum points 2) (powerSum points 3) (powerSum points 4) /
        mainDet points⟩ := by
  have hlt : ¬ points.length < 3 := not_lt.mpr h3
  have hDlt : ¬ |mainDet points| < det3Threshold := not_lt.mpr hD
  simp only [computePolynomialRegression2, hlt, if_false, mainDet] at hDlt ⊢
  simp only [hDlt, if_false]
  rw [regSums_eq]
  simp only [det3_eq_sarrus]

/-- Witness for C2 at the three points `{(0,0),(1,1),(2,4)}` (which lie on
`y = x²`): the hypotheses hold and the fit recovers `a = 1, b = 0, c = 0`. -/
theorem computePolynomialRegression2_cramer_witness :
    3 ≤ ([⟨0, 0⟩, ⟨1, 1⟩, ⟨2, 4⟩] : List Point).length ∧
    det3Threshold ≤ |mainDet [⟨0, 0⟩, ⟨1, 1⟩, ⟨2, 4⟩]| ∧
    computePolynomialRegression2 [⟨0, 0⟩, ⟨1, 1⟩, ⟨2, 4⟩] = ⟨1, 0, 0⟩ := by
  have hmain : mainDet [⟨0, 0⟩, ⟨1, 1⟩, ⟨2, 4⟩] = 4 := by
    norm_num [mainDet, regSums, accumSums, det3]
  have h3 : 3 ≤ ([⟨0, 0⟩, ⟨1, 1⟩, ⟨2, 4⟩] : List Point).length := by norm_num
  have hD : det3Threshold ≤ |mainDet [⟨0, 0⟩, ⟨1, 1⟩, ⟨2, 4⟩]| := by
    rw [hmain, abs_of_nonneg (by norm_num : (0 : ℚ) ≤ 4)]
    norm_num [det3Threshold]
  refine ⟨h3, hD, ?_⟩
  rw [computePolynomialRegression2_cramer [⟨0, 0⟩, ⟨1, 1⟩, ⟨2, 4⟩] h3 hD]
  simp only [Poly2Coeffs.mk.injEq]
  norm_num [det3Sarrus, powerSum, crossSum, hmain]

/-- **C3.** `computePolynomialRegression2` returns `{0,0,0}` (and is total, so
raises no error) whenever the list has fewer than 3 points or the main
determinant has absolute value below `1e-12`. -/
theorem computePolynomialRegression2_degenerate (points : List Point)
    (h : points.length < 3 ∨ |mainDet points| < det3Threshold) :
    computePolynomialRegression2 points = ⟨0, 0, 0⟩ := by
  rcases h with h | h
  · exact computePolynomialRegression2_short points h
  · exact computePolynomialRegression2_singular points h

/-- Witness for C3 at a two-point list. -/
theorem computePolynomialRegression2_degenerate_witness :
    (([⟨0, 0⟩, ⟨1, 1⟩] : List Point).length < 3 ∨
      |mainDet [⟨0, 0⟩, ⟨1, 1⟩]| < det3Threshold) ∧
    computePolynomialRegression2 [⟨0, 0⟩, ⟨1, 1⟩] = ⟨0, 0, 0⟩ :=
  ⟨Or.inl (by decide),
    computePolynomialRegression2_degenerate [⟨0, 0⟩, ⟨1, 1⟩] (Or.inl (by decide))⟩

/-- The main determinant written with specification-side power sums. -/
theorem mainDet_eq_powerSums (points : List Point) :
    mainDet points =
      det3 (points.length : ℚ) (powerSum points 1) (powerSum points 2)
        (powerSum points 1) (powerSum points 2) (powerSum points 3)
        (powerSum points 2) (powerSum points 3) (powerSum points 4) := by
  rw [mainDet, regSums_eq]

/-- When every x coordinate is `a` or `b`, each power sum satisfies the
two-term recurrence `Σx^(k+2) = (a+b)·Σx^(k+1) − a·b·Σx^k`, for `k = 0,1,2`
(with `Σx^0 = n`). -/
theorem powerSum_two_values (a b : ℚ) :
    ∀ points : List Point, (∀ p ∈ points, p.x = a ∨ p.x = b) →
      powerSum points 2 =
          (a + b) * powerSum points 1 - a * b * (points.length : ℚ) ∧
        powerSum points 3 =
          (a + b) * powerSum points 2 - a * b * powerSum points 1 ∧
        powerSum points 4 =
          (a + b) * powerSum points 3 - a * b * powerSum points 2 := by
  intro points
  induction points with
  | nil => intro _; simp [powerSum]
  | cons p rest ih =>
      intro h
      have hp : (p.x - a) * (p.x - b) = 0 := by
        rcases h p (List.mem_cons_self p rest) with hx | hx <;> rw [hx] <;> ring
      have hrest := ih (fun q hq => h q (List.mem_cons_of_mem p hq))
      obtain ⟨h2, h3, h4⟩ := hrest
      have e2 : p.x ^ 2 = (a + b) * p.x - a * b := by linear_combination hp
      have e3 : p.x ^ 3 = (a + b) * p.x ^ 2 - a * b * p.x := by
        linear_combination p.x * hp
      have e4 : p.x ^ 4 = (a + b) * p.x ^ 3 - a * b * p.x ^ 2 := by
        linear_combination p.x ^ 2 * hp
      simp only [powerSum, List.map_cons, List.sum_cons, List.length_cons,
        Nat.cast_succ] at h2 h3 h4 ⊢
      refine ⟨?_, ?_, ?_⟩
      · rw [e2, h2]; ring
      · rw [e3, h3, e2]; ring
      · rw [e4, h4, e3]; ring

/-- **C4 (amended).** For every list of 3 or more points whose x coordinates
take at most two distinct values `a`, `b` (the degenerate quadratic basis),
the main determinant is exactly zero — hence below the `1e-12` threshold —
and `computePolynomialRegression2` returns `{0,0,0}`. -/
theorem fitQuadratic_degenerate_basis (points : List Point) (a b : ℚ)
    (_h3 : 3 ≤ points.length) (hx : ∀ p ∈ points, p.x = a ∨ p.x = b) :
    mainDet points = 0 ∧ computePolynomialRegression2 points = ⟨0, 0, 0⟩ := by
  obtain ⟨h2, h3', h4⟩ := powerSum_two_values a b points hx
  have hdet : mainDet points = 0 := by
    rw [mainDet_eq_powerSums, det3, h4, h3', h2]
    ring
  refine ⟨hdet, computePolynomialRegression2_singular points ?_⟩
  rw [hdet, abs_zero, det3Threshold]
  norm_num

/-- Witness for the amended C4: three points with x-values in `{0, 1}`. -/
theorem fitQuadratic_degenerate_basis_witness :
    3 ≤ ([⟨0, 0⟩, ⟨0, 1⟩, ⟨1, 5⟩] : List Point).length ∧
    (∀ p ∈ ([⟨0, 0⟩, ⟨0, 1⟩, ⟨1, 5⟩] : List Point),
      p.x = (0 : ℚ) ∨ p.x = (1 : ℚ)) ∧
    mainDet [⟨0, 0⟩, ⟨0, 1⟩, ⟨1, 5⟩] = 0 ∧
    computePolynomialRegression2 [⟨0, 0⟩, ⟨0, 1⟩, ⟨1, 5⟩] = ⟨0, 0, 0⟩ := by
  have h3 : 3 ≤ ([⟨0, 0⟩, ⟨0, 1⟩, ⟨1, 5⟩] : List Point).length := by norm_num
  have hx : ∀ p ∈ ([⟨0, 0⟩, ⟨0, 1⟩, ⟨1, 5⟩] : List Point),
      p.x = (0 : ℚ) ∨ p.x = (1 : ℚ) := by decide
  have h := fitQuadratic_degenerate_basis [⟨0, 0⟩, ⟨0, 1⟩, ⟨1, 5⟩] 0 1 h3 hx
  exact ⟨h3, hx, h.1, h.2⟩

/-- Counterexample to C4 as stated: the three collinear points
`{(0,0),(1,1),(2,2)}` (on the line `y = 1·x + 0`) have main determinant `4`,
far above the `1e-12` threshold, and `computePolynomialRegression2` returns
the exact interpolating line `{a=0, b=1, c=0}`, not `{0,0,0}`: collinearity
does not make the normal-equations matrix singular when the x-values are
distinct, since that matrix depends only on the x coordinates. -/
theorem fitQuadratic_collinear_counterexample :
    (∀ p ∈ ([⟨0, 0⟩, ⟨1, 1⟩, ⟨2, 2⟩] : List Point),
      p.y = 1 * p.x + 0) ∧
    3 ≤ ([⟨0, 0⟩, ⟨1, 1⟩, ⟨2, 2⟩] : List Point).length ∧
    mainDet [⟨0, 0⟩, ⟨1, 1⟩, ⟨2, 2⟩] = 4 ∧
    ¬ |mainDet [⟨0, 0⟩, ⟨1, 1⟩, ⟨2, 2⟩]| < det3Threshold ∧
    computePolynomialRegression2 [⟨0, 0⟩, ⟨1, 1⟩, ⟨2, 2⟩] = ⟨0, 1, 0⟩ := by
  have hmain : mainDet [⟨0, 0⟩, ⟨1, 1⟩, ⟨2, 2⟩] = 4 := by
    norm_num [mainDet, regSums, accumSums, det3]
  have hD : ¬ |mainDet [⟨0, 0⟩, ⟨1, 1⟩, ⟨2, 2⟩]| < det3Threshold := by
    rw [hmain, abs_of_nonneg (by norm_num : (0 : ℚ) ≤ 4)]
    norm_num [det3Threshold]
  have hline : ∀ p ∈ ([⟨0, 0⟩, ⟨1, 1⟩, ⟨2, 2⟩] : List Point),
      p.y = 1 * p.x + 0 := by
    intro p hp
    fin_cases hp <;> norm_num
  refine ⟨hline, by norm_num, hmain, hD, ?_⟩
  rw [computePolynomialRegression2_nonsingular [⟨0, 0⟩, ⟨1, 1⟩, ⟨2, 2⟩]
    (by norm_num) hD]
  simp only [Poly2Coeffs.mk.injEq]
  norm_num [regSums, accumSums, det3, hmain]

/-- **C5.** Whenever `minX < maxX`, `minY < maxY`, `w ≠ 100` and `h ≠ 220`
(so that no mapping denominator vanishes), `toDataCoords` and
`toScreenCoords` are mutual inverses over exact arithmetic: the round trip
data→viewport→data is the identity on every data point, and the round trip
viewport→data→viewport is the identity on every viewport point. -/
theorem coordinateMapper_round_trip (w h minX maxX minY maxY : ℚ)
    (hx : minX < maxX) (hy : minY < maxY) (hw : w ≠ 100) (hh : h ≠ 220) :
    (∀ x y : ℚ,
      toDataCoords w h minX maxX minY maxY
        (toScreenCoords w h minX maxX minY maxY x y).1
        (toScreenCoords w h minX maxX minY maxY x y).2 = (x, y)) ∧
    (∀ sx sy : ℚ,
      toScreenCoords w h minX maxX minY maxY
        (toDataCoords w h minX maxX minY maxY sx sy).1
        (toDataCoords w h minX maxX minY maxY sx sy).2 = (sx, sy)) := by
  have hxne : maxX - minX ≠ 0 := sub_ne_zero.mpr (ne_of_gt hx)
  have hyne : maxY - minY ≠ 0 := sub_ne_zero.mpr (ne_of_gt hy)
  have hwne : w - 100 ≠ 0 := sub_ne_zero.mpr hw
  have hhne : h - 120 - 100 ≠ 0 := by
    intro hcon
    apply hh
    linarith
  constructor
  · intro x y
    simp only [toScreenCoords, toDataCoords, Prod.mk.injEq]
    constructor
    · field_simp
      ring
    · field_simp
      ring
  · intro sx sy
    simp only [toScreenCoords, toDataCoords, Prod.mk.injEq]
    constructor
    · field_simp
      ring
    · field_simp
      ring

/-- Witness for C5 at `w = 800`, `h = 600`, bounds `[0,4]×[0,6]`, data point
`(1,2)` and viewport point `(75, 300)`. -/
theorem coordinateMapper_round_trip_witness :
    ((0 : ℚ) < 4 ∧ (0 : ℚ) < 6 ∧ (800 : ℚ) ≠ 100 ∧ (600 : ℚ) ≠ 220) ∧
    toDataCoords 800 600 0 4 0 6
      (toScreenCoords 800 600 0 4 0 6 1 2).1
      (toScreenCoords 800 600 0 4 0 6 1 2).2 = (1, 2) ∧
    toScreenCoords 800 600 0 4 0 6
      (toDataCoords 800 600 0 4 0 6 75 300).1
      (toDataCoords 800 600 0 4 0 6 75 300).2 = (75, 300) := by
  have h := coordinateMapper_round_trip 800 600 0 4 0 6
    (by norm_num) (by norm_num) (by norm_num) (by norm_num)
  exact ⟨⟨by norm_num, by norm_num, by norm_num, by norm_num⟩, h.1 1 2, h.2 75 300⟩

/-- The running-minimum fold `if g q < m then g q else m` ends at its seed or
at some list element, never exceeds its seed, and bounds every element from
below. -/
theorem foldl_min_spec {α : Type} (g : α → ℚ) :
    ∀ (l : List α) (a : ℚ),
      (l.foldl (fun m q => if g q < m then g q else m) a = a ∨
        ∃ q ∈ l, l.foldl (fun m q => if g q < m then g q else m) a = g q) ∧
      l.foldl (fun m q => if g q < m then g q else m) a ≤ a ∧
      ∀ q ∈ l, l.foldl (fun m q => if g q < m then g q else m) a ≤ g q := by
  intro l
  induction l with
  | nil =>
      intro a
      exact ⟨Or.inl rfl, le_refl a, fun q hq => absurd hq (List.not_mem_nil q)⟩
  | cons p rest ih =>
      intro a
      simp only [List.foldl_cons]
      obtain ⟨hmem, hle, hall⟩ := ih (if g p < a then g p else a)
      have ha'a : (if g p < a then g p else a) ≤ a := by
        split_ifs with hpa
        · exact le_of_lt hpa
        · exact le_refl a
      have ha'p : (if g p < a then g p else a) ≤ g p := by
        split_ifs with hpa
        · exact le_refl (g p)
        · exact not_lt.mp hpa
      refine ⟨?_, le_trans hle ha'a, ?_⟩
      · rcases hmem with hres | ⟨q, hq, hres⟩
        · rw [hres]
          split_ifs with hpa
          · exact Or.inr ⟨p, List.mem_cons_self p rest, rfl⟩
          · exact Or.inl rfl
        · exact Or.inr ⟨q, List.mem_cons_of_mem p hq, hres⟩
      · intro q hq
        rcases List.mem_cons.mp hq with hq | hq
        · rw [hq]
          exact le_trans hle ha'p
        · exact hall q hq

/-- The running-maximum fold `if g q > m then g q else m`, dual to
`foldl_min_spec`. -/
theorem foldl_max_spec {α : Type} (g : α → ℚ) :
    ∀ (l : List α) (a : ℚ),
      (l.foldl (fun m q => if g q > m then g q else m) a = a ∨
        ∃ q ∈ l, l.foldl (fun m q => if g q > m then g q else m) a = g q) ∧
      a ≤ l.foldl (fun m q => if g q > m then g q else m) a ∧
      ∀ q ∈ l, g q ≤ l.foldl (fun m q => if g q > m then g q else m) a := by
  intro l
  induction l with
  | nil =>
      intro a
      exact ⟨Or.inl rfl, le_refl a, fun q hq => absurd hq (List.not_mem_nil q)⟩
  | cons p rest ih =>
      intro a
      simp only [List.foldl_cons]
      obtain ⟨hmem, hle, hall⟩ := ih (if g p > a then g p else a)
      have ha'a : a ≤ (if g p > a then g p else a) := by
        split_ifs with hpa
        · exact le_of_lt hpa
        · exact le_refl a
      have ha'p : g p ≤ (if g p > a then g p else a) := by
        split_ifs with hpa
        · exact le_refl (g p)
        · exact not_lt.mp hpa
      refine ⟨?_, le_trans ha'a hle, ?_⟩
      · rcases hmem with hres | ⟨q, hq, hres⟩
        · rw [hres]
          split_ifs with hpa
          · exact Or.inr ⟨p, List.mem_cons_self p rest, rfl⟩
          · exact Or.inl rfl
        · exact Or.inr ⟨q, List.mem_cons_of_mem p hq, hres⟩
      · intro q hq
        rcases List.mem_cons.mp hq with hq | hq
        · rw [hq]
          exact le_trans ha'p hle
        · exact hall q hq

/-- On an empty point set `updateModelAndBounds` installs the default range
and zero coefficients for both models. -/
theorem updateModelAndBounds_empty (s : AppState) (h : s.dataPoints = []) :
    updateModelAndBounds s =
      { s with minX := -1, maxX := 1, minY := -1, maxY := 1,
               slope := 0, intercept := 0, polyCoeffs := ⟨0, 0, 0⟩ } := by
  rw [updateModelAndBounds, h]

/-- On a nonempty point set `updateModelAndBounds` sets each bound to the
corresponding running extremum (seeded with the front element) shifted by
the padding `1`, and leaves the point list unchanged. -/
theorem updateModelAndBounds_cons (s : AppState) (p : Point) (rest : List Point)
    (h : s.dataPoints = p :: rest) :
    (updateModelAndBounds s).minX =
        (p :: rest).foldl (fun m q => if q.x < m then q.x else m) p.x - 1 ∧
      (updateModelAndBounds s).maxX =
        (p :: rest).foldl (fun m q => if q.x > m then q.x else m) p.x + 1 ∧
      (updateModelAndBounds s).minY =
        (p :: rest).foldl (fun m q => if q.y < m then q.y else m) p.y - 1 ∧
      (updateModelAndBounds s).maxY =
        (p :: rest).foldl (fun m q => if q.y > m then q.y else m) p.y + 1 ∧
      (updateModelAndBounds s).dataPoints = s.dataPoints := by
  rw [updateModelAndBounds, h]
  by_cases hreg : s.currentReg = RegressionType.LINEAR
  · simp [hreg, h]
  · simp [hreg, h]

/-- `updateModelAndBounds` never changes the point list itself. -/
theorem updateModelAndBounds_dataPoints (s : AppState) :
    (updateModelAndBounds s).dataPoints = s.dataPoints := by
  cases h : s.dataPoints with
  | nil => rw [updateModelAndBounds_empty s h, h]
  | cons p rest => rw [(updateModelAndBounds_cons s p rest h).2.2.2.2, h]

/-- **C7.** After `updateModelAndBounds`: on an empty point set the bounds
are the default `[-1,1]×[-1,1]`; on a nonempty set each bound is a raw
coordinate extremum shifted outward by the additive padding `1` (it equals
`q.x ∓ 1` for some point `q` and bounds every point's coordinate); and in
both cases `minX < maxX` and `minY < maxY`, including for a single point. -/
theorem updateModelAndBounds_bounds (s : AppState) :
    ((updateModelAndBounds s).minX < (updateModelAndBounds s).maxX ∧
      (updateModelAndBounds s).minY < (updateModelAndBounds s).maxY) ∧
    (s.dataPoints = [] →
      (updateModelAndBounds s).minX = -1 ∧ (updateModelAndBounds s).maxX = 1 ∧
      (updateModelAndBounds s).minY = -1 ∧ (updateModelAndBounds s).maxY = 1) ∧
    (s.dataPoints ≠ [] →
      ((∃ q ∈ s.dataPoints, (updateModelAndBounds s).minX = q.x - 1) ∧
        (∀ q ∈ s.dataPoints, (updateModelAndBounds s).minX ≤ q.x - 1)) ∧
      ((∃ q ∈ s.dataPoints, (updateModelAndBounds s).maxX = q.x + 1) ∧
        (∀ q ∈ s.dataPoints, q.x + 1 ≤ (updateModelAndBounds s).maxX)) ∧
      ((∃ q ∈ s.dataPoints, (updateModelAndBounds s).minY = q.y - 1) ∧
        (∀ q ∈ s.dataPoints, (updateModelAndBounds s).minY ≤ q.y - 1)) ∧
      ((∃ q ∈ s.dataPoints, (updateModelAndBounds s).maxY = q.y + 1) ∧
        (∀ q ∈ s.dataPoints, q.y + 1 ≤ (updateModelAndBounds s).maxY))) := by
  cases hpts : s.dataPoints with
  | nil =>
      rw [updateModelAndBounds_empty s hpts]
      refine ⟨⟨by norm_num, by norm_num⟩, fun _ => ⟨rfl, rfl, rfl, rfl⟩, ?_⟩
      intro hne
      exact absurd rfl hne
  | cons p rest =>
      obtain ⟨hminX, hmaxX, hminY, hmaxY, _⟩ := updateModelAndBounds_cons s p rest hpts
      obtain ⟨hmemX, hseedX, hallX⟩ := (foldl_min_spec Point.x (p :: rest) p.x)
      obtain ⟨hmemX', hseedX', hallX'⟩ := (foldl_max_spec Point.x (p :: rest) p.x)
      obtain ⟨hmemY, hseedY, hallY⟩ := (foldl_min_spec Point.y (p :: rest) p.y)
      obtain ⟨hmemY', hseedY', hallY'⟩ := (foldl_max_spec Point.y (p :: rest) p.y)
      refine ⟨⟨?_, ?_⟩, ?_, ?_⟩
      · rw [hminX, hmaxX]
        linarith
      · rw [hminY, hmaxY]
        linarith
      · intro hempty
        exact absurd hempty (List.cons_ne_nil p rest)
      · intro _
        refine ⟨⟨?_, ?_⟩, ⟨?_, ?_⟩, ⟨?_, ?_⟩, ⟨?_, ?_⟩⟩
        · rcases hmemX with hres | ⟨q, hq, hres⟩
          · exact ⟨p, List.mem_cons_self p rest, by rw [hminX, hres]⟩
          · exact ⟨q, hq, by rw [hminX, hres]⟩
        · intro q hq
          rw [hminX]
          have := hallX q hq
          linarith
        · rcases hmemX' with hres | ⟨q, hq, hres⟩
          · exact ⟨p, List.mem_cons_self p rest, by rw [hmaxX, hres]⟩
          · exact ⟨q, hq, by rw [hmaxX, hres]⟩
        · intro q hq
          rw [hmaxX]
          have := hallX' q hq
          linarith
        · rcases hmemY with hres | ⟨q, hq, hres⟩
          · exact ⟨p, List.mem_cons_self p rest, by rw [hminY, hres]⟩
          · exact ⟨q, hq, by rw [hminY, hres]⟩
        · intro q hq
          rw [hminY]
          have := hallY q hq
          linarith
        · rcases hmemY' with hres | ⟨q, hq, hres⟩
          · exact ⟨p, List.mem_cons_self p rest, by rw [hmaxY, hres]⟩
          · exact ⟨q, hq, by rw [hmaxY, hres]⟩
        · intro q hq
          rw [hmaxY]
          have := hallY' q hq
          linarith

/-- Witness for C7 on the one-point state: bounds become `[-1,1]×[-1,1]`
(extremum `0` padded by `1`) and the invariant holds. -/
theorem updateModelAndBounds_bounds_witness :
    originPointState.dataPoints ≠ [] ∧
    (updateModelAndBounds originPointState).minX = -1 ∧
    (updateModelAndBounds originPointState).maxX = 1 ∧
    (updateModelAndBounds originPointState).minY = -1 ∧
    (updateModelAndBounds originPointState).maxY = 1 ∧
    (updateModelAndBounds originPointState).minX <
      (updateModelAndBounds originPointState).maxX ∧
    (updateModelAndBounds originPointState).minY <
      (updateModelAndBounds originPointState).maxY := by
  have hinv := (updateModelAndBounds_bounds originPointState).1
  have hb := updateModelAndBounds_cons originPointState ⟨0, 0⟩ [] rfl
  refine ⟨by simp [originPointState], ?_, ?_, ?_, ?_, hinv.1, hinv.2⟩
  · rw [hb.1]
    norm_num
  · rw [hb.2.1]
    norm_num
  · rw [hb.2.2.1]
    norm_num
  · rw [hb.2.2.2.1]
    norm_num

/-- Invariant of the minimum scan started on a running best `(j, m)`: the
scan ends on its input best — in which case `m` bounds every scanned
distance — or on a scanned entry that is strictly smaller than `m`, is a
minimum of all scanned entries, and is strictly smaller than every entry
before it (ties keep the earlier winner because the update requires
`d < minDist`). -/
theorem nearestLoop_some_spec :
    ∀ (ds : List ℚ) (i j : ℕ) (m : ℚ),
      ∃ j' m', nearestLoop (some (j, m)) i ds = some (j', m') ∧
        ((j' = j ∧ m' = m ∧ ∀ k (hk : k < ds.length), m' ≤ ds.get ⟨k, hk⟩) ∨
          (∃ k, ∃ hk : k < ds.length, j' = i + k ∧ m' = ds.get ⟨k, hk⟩ ∧
            m' < m ∧ (∀ l (hl : l < ds.length), m' ≤ ds.get ⟨l, hl⟩) ∧
            ∀ l, l < k → ∀ hl : l < ds.length, m' < ds.get ⟨l, hl⟩)) := by
  intro ds
  induction ds with
  | nil =>
      intro i j m
      exact ⟨j, m, rfl, Or.inl ⟨rfl, rfl, fun k hk => absurd hk (by simp)⟩⟩
  | cons d rest ih =>
      intro i j m
      by_cases hd : d < m
      · have hstep : nearestLoop (some (j, m)) i (d :: rest) =
            nearestLoop (some (i, d)) (i + 1) rest := by
          simp [nearestLoop, minStep, hd]
        obtain ⟨j', m', heq, hspec⟩ := ih (i + 1) i d
        refine ⟨j', m', hstep.trans heq, Or.inr ?_⟩
        rcases hspec with ⟨hj, hm, hall⟩ | ⟨k, hk, hj, hm, hlt, hall, hfirst⟩
        · refine ⟨0, by simp, by omega, hm, ?_, ?_, ?_⟩
          · rw [hm]
            exact hd
          · intro l hl
            cases l with
            | zero => exact le_of_eq hm
            | succ l' => exact hall l' (Nat.lt_of_succ_lt_succ hl)
          · intro l hl
            exact absurd hl (Nat.not_lt_zero l)
        · refine ⟨k + 1, Nat.succ_lt_succ hk, by omega, hm, lt_trans hlt hd, ?_, ?_⟩
          · intro l hl
            cases l with
            | zero => exact le_of_lt hlt
            | succ l' => exact hall l' (Nat.lt_of_succ_lt_succ hl)
          · intro l hlk hl
            cases l with
            | zero => exact hlt
            | succ l' =>
                exact hfirst l' (Nat.lt_of_succ_lt_succ hlk) (Nat.lt_of_succ_lt_succ hl)
      · have hstep : nearestLoop (some (j, m)) i (d :: rest) =
            nearestLoop (some (j, m)) (i + 1) rest := by
          simp [nearestLoop, minStep, hd]
        obtain ⟨j', m', heq, hspec⟩ := ih (i + 1) j m
        refine ⟨j', m', hstep.trans heq, ?_⟩
        rcases hspec with ⟨hj, hm, hall⟩ | ⟨k, hk, hj, hm, hlt, hall, hfirst⟩
        · refine Or.inl ⟨hj, hm, ?_⟩
          intro k hk
          cases k with
          | zero =>
              rw [hm]
              exact not_lt.mp hd
          | succ k' => exact hall k' (Nat.lt_of_succ_lt_succ hk)
        · refine Or.inr ⟨k + 1, Nat.succ_lt_succ hk, by omega, hm, hlt, ?_, ?_⟩
          · intro l hl
            cases l with
            | zero => exact le_of_lt (lt_of_lt_of_le hlt (not_lt.mp hd))
            | succ l' => exact hall l' (Nat.lt_of_succ_lt_succ hl)
          · intro l hlk hl
            cases l with
            | zero => exact lt_of_lt_of_le hlt (not_lt.mp hd)
            | succ l' =>
                exact hfirst l' (Nat.lt_of_succ_lt_succ hlk) (Nat.lt_of_succ_lt_succ hl)

/-- On a nonempty distance list the scan started from
`minDist = FLT_MAX, minIndex = -1` returns the first index attaining the
minimum distance. -/
theorem nearestLoop_start_spec (ds : List ℚ) (hne : ds ≠ []) :
    ∃ k, ∃ hk : k < ds.length,
      nearestLoop none 0 ds = some (k, ds.get ⟨k, hk⟩) ∧
      (∀ l (hl : l < ds.length), ds.get ⟨k, hk⟩ ≤ ds.get ⟨l, hl⟩) ∧
      ∀ l, l < k → ∀ hl : l < ds.length, ds.get ⟨k, hk⟩ < ds.get ⟨l, hl⟩ := by
  cases ds with
  | nil => exact absurd rfl hne
  | cons d rest =>
      have hstep : nearestLoop none 0 (d :: rest) =
          nearestLoop (some (0, d)) 1 rest := by
        simp [nearestLoop, minStep]
      obtain ⟨j', m', heq, hspec⟩ := nearestLoop_some_spec rest 1 0 d
      rcases hspec with ⟨hj, hm, hall⟩ | ⟨k, hk, hj, hm, hlt, hall, hfirst⟩
      · subst hj
        subst hm
        refine ⟨0, by simp, ?_, ?_, ?_⟩
        · rw [hstep, heq]
          exact rfl
        · intro l hl
          cases l with
          | zero => exact le_refl _
          | succ l' => exact hall l' (Nat.lt_of_succ_lt_succ hl)
        · intro l hl
          exact absurd hl (Nat.not_lt_zero l)
      · subst hm
        have hj' : j' = k + 1 := by omega
        subst hj'
        refine ⟨k + 1, Nat.succ_lt_succ hk, ?_, ?_, ?_⟩
        · rw [hstep, heq]
          exact rfl
        · intro l hl
          cases l with
          | zero => exact le_of_lt hlt
          | succ l' => exact hall l' (Nat.lt_of_succ_lt_succ hl)
        · intro l hlk hl
          cases l with
          | zero => exact hlt
          | succ l' =>
              exact hfirst l' (Nat.lt_of_succ_lt_succ hlk) (Nat.lt_of_succ_lt_succ hl)

/-- The reported index of `findNearestIdx`: `some i` means the i-th distance
is the first minimum and beats the squared threshold `100`; `none` on a
nonempty list means the minimum distance is at least `100`. -/
theorem findNearestIdx_spec (ds : List ℚ) (hne : ds ≠ []) :
    (∀ i, findNearestIdx ds = some i →
      ∃ hi : i < ds.length, ds.get ⟨i, hi⟩ < 100 ∧
        (∀ j (hj : j < ds.length), ds.get ⟨i, hi⟩ ≤ ds.get ⟨j, hj⟩) ∧
        ∀ j, j < i → ∀ hj : j < ds.length, ds.get ⟨i, hi⟩ < ds.get ⟨j, hj⟩) ∧
    (findNearestIdx ds = none →
      ∀ j (hj : j < ds.length), 100 ≤ ds.get ⟨j, hj⟩) := by
  obtain ⟨k, hk, heq, hmin, hfirst⟩ := nearestLoop_start_spec ds hne
  have hfn : findNearestIdx ds =
      if ds.get ⟨k, hk⟩ < 100 then some k else none := by
    rw [findNearestIdx, heq]
  constructor
  · intro i hi
    rw [hfn] at hi
    by_cases hth : ds.get ⟨k, hk⟩ < 100
    · rw [if_pos hth] at hi
      have hik : k = i := Option.some_inj.mp hi
      subst hik
      exact ⟨hk, hth, hmin, hfirst⟩
    · rw [if_neg hth] at hi
      cases hi
  · intro hnone j hj
    rw [hfn] at hnone
    by_cases hth : ds.get ⟨k, hk⟩ < 100
    · rw [if_pos hth] at hnone
      cases hnone
    · exact le_trans (not_lt.mp hth) (hmin j hj)

/-- With every distance at or above the threshold, `findNearestIdx` reports
nothing. -/
theorem findNearestIdx_none_of_far (ds : List ℚ)
    (hfar : ∀ d ∈ ds, (100 : ℚ) ≤ d) : findNearestIdx ds = none := by
  by_cases hne : ds = []
  · subst hne
    rfl
  · obtain ⟨k, hk, heq, hmin, _⟩ := nearestLoop_start_spec ds hne
    have hth : ¬ ds.get ⟨k, hk⟩ < 100 := not_lt.mpr (hfar _ (ds.get_mem k hk))
    have hfn : findNearestIdx ds =
        if ds.get ⟨k, hk⟩ < 100 then some k else none := by
      rw [findNearestIdx, heq]
    rw [hfn, if_neg hth]

/-- **C6.** The nearest-point query of `removeNearestPoint` on a nonempty
point set: distances are the (squared) viewport distances of the mapped
points to the query, in insertion order.  A reported index is in range,
beats the threshold (`100 = 10²` on squared distances), attains the minimum
distance, and is strictly better than every earlier point (exact ties keep
the first point).  A `none` report means every point is at least the
threshold away, and then nothing is removed. -/
theorem findNearest_contract (w h mx my : ℚ) (s : AppState)
    (hne : s.dataPoints ≠ []) :
    (sqDistsToQuery w h s mx my).length = s.dataPoints.length ∧
    (∀ i, findNearestIdx (sqDistsToQuery w h s mx my) = some i →
      ∃ hi : i < (sqDistsToQuery w h s mx my).length,
        (sqDistsToQuery w h s mx my).get ⟨i, hi⟩ < 100 ∧
        (∀ j (hj : j < (sqDistsToQuery w h s mx my).length),
          (sqDistsToQuery w h s mx my).get ⟨i, hi⟩ ≤
            (sqDistsToQuery w h s mx my).get ⟨j, hj⟩) ∧
        ∀ j, j < i → ∀ hj : j < (sqDistsToQuery w h s mx my).length,
          (sqDistsToQuery w h s mx my).get ⟨i, hi⟩ <
            (sqDistsToQuery w h s mx my).get ⟨j, hj⟩) ∧
    (findNearestIdx (sqDistsToQuery w h s mx my) = none →
      (∀ j (hj : j < (sqDistsToQuery w h s mx my).length),
        100 ≤ (sqDistsToQuery w h s mx my).get ⟨j, hj⟩) ∧
      removeNearestPoint w h mx my s = s) := by
  have hlen : (sqDistsToQuery w h s mx my).length = s.dataPoints.length :=
    List.length_map ..
  have hdne : sqDistsToQuery w h s mx my ≠ [] := by
    intro hnil
    apply hne
    have := congrArg List.length hnil
    rw [hlen] at this
    exact List.length_eq_zero.mp this
  obtain ⟨hsome, hnone⟩ := findNearestIdx_spec (sqDistsToQuery w h s mx my) hdne
  refine ⟨hlen, hsome, ?_⟩
  intro hn
  refine ⟨hnone hn, ?_⟩
  rw [removeNearestPoint, if_neg hne, hn]

/-- Witness for C6: the one-point state queried exactly at the screen
position `(400, 360)` of its point reports index `0`. -/
theorem findNearest_contract_witness :
    originPointState.dataPoints ≠ [] ∧
    findNearestIdx (sqDistsToQuery 800 600 originPointState 400 360) = some 0 ∧
    ∃ hi : 0 < (sqDistsToQuery 800 600 originPointState 400 360).length,
      (sqDistsToQuery 800 600 originPointState 400 360).get ⟨0, hi⟩ < 100 ∧
      (∀ j (hj : j < (sqDistsToQuery 800 600 originPointState 400 360).length),
        (sqDistsToQuery 800 600 originPointState 400 360).get ⟨0, hi⟩ ≤
          (sqDistsToQuery 800 600 originPointState 400 360).get ⟨j, hj⟩) ∧
      ∀ j, j < 0 → ∀ hj : j < (sqDistsToQuery 800 600 originPointState 400 360).length,
        (sqDistsToQuery 800 600 originPointState 400 360).get ⟨0, hi⟩ <
          (sqDistsToQuery 800 600 originPointState 400 360).get ⟨j, hj⟩ := by
  have hne : originPointState.dataPoints ≠ [] := by simp [originPointState]
  have hds : sqDistsToQuery 800 600 originPointState 400 360 = [0] := by
    norm_num [sqDistsToQuery, toScreenCoords, originPointState]
  have hfi : findNearestIdx (sqDistsToQuery 800 600 originPointState 400 360) =
      some 0 := by
    rw [hds]
    norm_num [findNearestIdx, nearestLoop, minStep]
  exact ⟨hne, hfi, (findNearest_contract 800 600 400 360 originPointState hne).2.1 0 hfi⟩

/-- **C8.** A removal request is a no-op on an empty point set and whenever
the index selection reports no candidate; in every case the point list is
either unchanged or obtained by erasing exactly one valid current index. -/
theorem removeNearestPoint_noop_or_erase (w h mx my : ℚ) (s : AppState) :
    (s.dataPoints = [] → removeNearestPoint w h mx my s = s) ∧
    (findNearestIdx (sqDistsToQuery w h s mx my) = none →
      removeNearestPoint w h mx my s = s) ∧
    ((removeNearestPoint w h mx my s).dataPoints = s.dataPoints ∨
      ∃ i, i < s.dataPoints.length ∧
        (removeNearestPoint w h mx my s).dataPoints = s.dataPoints.eraseIdx i) := by
  refine ⟨?_, ?_, ?_⟩
  · intro hempty
    rw [removeNearestPoint, if_pos hempty]
  · intro hn
    by_cases hempty : s.dataPoints = []
    · rw [removeNearestPoint, if_pos hempty]
    · rw [removeNearestPoint, if_neg hempty, hn]
  · by_cases hempty : s.dataPoints = []
    · rw [removeNearestPoint, if_pos hempty]
      exact Or.inl rfl
    · have hlen2 : (sqDistsToQuery w h s mx my).length = s.dataPoints.length :=
        List.length_map ..
      have hdne : sqDistsToQuery w h s mx my ≠ [] := by
        intro hnil
        apply hempty
        rw [hnil] at hlen2
        have h0 : s.dataPoints.length = 0 := by simpa using hlen2.symm
        exact List.length_eq_zero.mp h0
      cases hfi : findNearestIdx (sqDistsToQuery w h s mx my) with
      | none =>
          rw [removeNearestPoint, if_neg hempty, hfi]
          exact Or.inl rfl
      | some i =>
          obtain ⟨hi, -, -, -⟩ :=
            (findNearestIdx_spec (sqDistsToQuery w h s mx my) hdne).1 i hfi
          refine Or.inr ⟨i, ?_, ?_⟩
          · exact hlen2 ▸ hi
          · rw [removeNearestPoint, if_neg hempty, hfi,
              updateModelAndBounds_dataPoints]

/-- Witness for C8 on the empty state. -/
theorem removeNearestPoint_noop_or_erase_witness :
    emptyPointState.dataPoints = [] ∧
    removeNearestPoint 800 600 10 20 emptyPointState = emptyPointState ∧
    ((removeNearestPoint 800 600 10 20 emptyPointState).dataPoints =
        emptyPointState.dataPoints ∨
      ∃ i, i < emptyPointState.dataPoints.length ∧
        (removeNearestPoint 800 600 10 20 emptyPointState).dataPoints =
          emptyPointState.dataPoints.eraseIdx i) := by
  have h := removeNearestPoint_noop_or_erase 800 600 10 20 emptyPointState
  exact ⟨rfl, h.1 rfl, h.2.2⟩

/-- **C10.** When no point is strictly within the removal threshold, the
whole state — bounds, linear coefficients, quadratic coefficients and the
point list — is returned untouched: the recompute cascade runs only after a
successful erase. -/
theorem removeNearestPoint_frame (w h mx my : ℚ) (s : AppState)
    (hfar : ∀ d ∈ sqDistsToQuery w h s mx my, (100 : ℚ) ≤ d) :
    removeNearestPoint w h mx my s = s ∧
    (removeNearestPoint w h mx my s).minX = s.minX ∧
    (removeNearestPoint w h mx my s).maxX = s.maxX ∧
    (removeNearestPoint w h mx my s).minY = s.minY ∧
    (removeNearestPoint w h mx my s).maxY = s.maxY ∧
    (removeNearestPoint w h mx my s).slope = s.slope ∧
    (removeNearestPoint w h mx my s).intercept = s.intercept ∧
    (removeNearestPoint w h mx my s).polyCoeffs = s.polyCoeffs ∧
    (removeNearestPoint w h mx my s).dataPoints = s.dataPoints := by
  have hmain : removeNearestPoint w h mx my s = s := by
    by_cases hempty : s.dataPoints = []
    · rw [removeNearestPoint, if_pos hempty]
    · rw [removeNearestPoint, if_neg hempty,
        findNearestIdx_none_of_far (sqDistsToQuery w h s mx my) hfar]
  rw [hmain]
  exact ⟨rfl, rfl, rfl, rfl, rfl, rfl, rfl, rfl, rfl⟩

/-- Witness for C10: the one-point state queried at the viewport origin; the
point sits at screen `(400, 360)`, squared distance `289600 ≥ 100`, so the
state with its coefficients `slope = 3`, `intercept = 7`,
`polyCoeffs = (1,2,3)` is untouched. -/
theorem removeNearestPoint_frame_witness :
    (∀ d ∈ sqDistsToQuery 800 600 originPointState 0 0, (100 : ℚ) ≤ d) ∧
    removeNearestPoint 800 600 0 0 originPointState = originPointState ∧
    (removeNearestPoint 800 600 0 0 originPointState).slope = 3 ∧
    (removeNearestPoint 800 600 0 0 originPointState).intercept = 7 ∧
    (removeNearestPoint 800 600 0 0 originPointState).polyCoeffs = ⟨1, 2, 3⟩ := by
  have hds : sqDistsToQuery 800 600 originPointState 0 0 = [289600] := by
    norm_num [sqDistsToQuery, toScreenCoords, originPointState]
  have hfar : ∀ d ∈ sqDistsToQuery 800 600 originPointState 0 0, (100 : ℚ) ≤ d := by
    rw [hds]
    intro d hd
    rw [List.mem_singleton.mp hd]
    norm_num
  have h := removeNearestPoint_frame 800 600 0 0 originPointState hfar
  refine ⟨hfar, h.1, ?_, ?_, ?_⟩
  · rw [h.2.2.2.2.2.1]
    rfl
  · rw [h.2.2.2.2.2.2.1]
    rfl
  · rw [h.2.2.2.2.2.2.2.1]
    rfl

/-- **C9.** Every division of the two fitting functions is guarded: running
them with every division checked for a zero divisor succeeds and returns the
same result, i.e. the zero-divisor branch of `checkedDiv` is unreachable on
the executed paths. -/
theorem division_guards_sound (points : List Point) :
    computeLinearRegressionChecked points = some (computeLinearRegression points) ∧
    computePolynomialRegression2Checked points =
      some (computePolynomialRegression2 points) := by
  constructor
  · by_cases hne : points = []
    · simp [computeLinearRegressionChecked, computeLinearRegression, hne]
    · have hlen : (points.length : ℚ) ≠ 0 := by
        simp only [ne_eq, Nat.cast_eq_zero, List.length_eq_zero]
        exact hne
      by_cases hv : varSum points (sumX points / (points.length : ℚ)) = 0
      · simp [computeLinearRegressionChecked, computeLinearRegression,
          checkedDiv, hne, hlen, hv]
      · simp [computeLinearRegressionChecked, computeLinearRegression,
          checkedDiv, hne, hlen, hv]
  · by_cases hlen : points.length < 3
    · simp [computePolynomialRegression2Checked, computePolynomialRegression2, hlen]
    · by_cases hD : |mainDet points| < det3Threshold
      · have hD' := hD
        simp only [mainDet] at hD'
        simp [computePolynomialRegression2Checked, computePolynomialRegression2,
          hlen, hD']
      · have hD' := hD
        simp only [mainDet] at hD'
        have hDne : mainDet points ≠ 0 := by
          intro h0
          apply hD
          rw [h0, abs_zero, det3Threshold]
          norm_num
        have hDne' := hDne
        simp only [mainDet] at hDne'
        simp [computePolynomialRegression2Checked, computePolynomialRegression2,
          checkedDiv, hlen, hD', hDne']

end LinPolyReg
